/-
Verification of the auto-update library manager (package `tuf`,
`updateLibraryManager` in wix.go) and the Windows executable-permission
check (`pkg/autoupdate/helpers_windows.go`) of the launcher repository.

Shallow embedding conventions:
* Go strings are modelled as `List Char` (`Str`).
* Byte streams and file contents are modelled as `List Nat`.
* The filesystem state relevant to the library manager is modelled as
  `State`: the per-binary version directories plus the shared staging
  directory.
* External collaborators that are not part of the translated source are
  modelled from the spec and marked as such in their doc comments:
  the executable liveness probe (`--version` invocation), semver parsing
  and ordering, and the cryptographic hash computed by the integrity
  verifier (kept abstract as a deterministic function of the bytes).
-/
import Mathlib

/-- Go strings, modelled as lists of characters. -/
abbrev Str := List Char

/-- Modelled from the spec: the closed set of managed binaries
(`autoupdatableBinary`, declared outside the translated source):
`{launcher, osqueryd}`. -/
inductive Binary where
  | launcher
  | osqueryd
deriving DecidableEq

/-- The name of each binary, as used in target filenames. -/
def binaryName : Binary → Str
  | .launcher => "launcher".toList
  | .osqueryd => "osqueryd".toList

/-- Go `strings.HasPrefix p s` (arguments: candidate head `p`, string `s`). -/
def hasPre : Str → Str → Bool
  | [], _ => true
  | _ :: _, [] => false
  | p :: ps, s :: ss => p == s && hasPre ps ss

/-- Go `strings.TrimPrefix s p`: drops `p` from the front of `s` when it
starts with `p`, otherwise returns `s` unchanged. -/
def trimPre (s p : Str) : Str :=
  if hasPre p s then s.drop p.length else s

/-- Go `strings.HasSuffix s t`. -/
def hasSuf (s t : Str) : Bool :=
  hasPre t.reverse s.reverse

/-- Go `strings.TrimSuffix s t`: drops one trailing copy of `t` from `s`
when present, otherwise returns `s` unchanged. -/
def trimSuf (s t : Str) : Str :=
  if hasSuf s t then s.take (s.length - t.length) else s

/-- `versionFromTarget` (wix.go:928): extracts the version from a target
filename of the form `launcher-0.13.6.tar.gz` by trimming the
`{binary}-` front and the `.tar.gz` extension. -/
def versionFromTarget (binary : Binary) (targetFilename : Str) : Str :=
  trimSuf (trimPre targetFilename (binaryName binary ++ "-".toList)) ".tar.gz".toList

theorem hasPre_append (t r : Str) : hasPre t (t ++ r) = true := by
  induction t with
  | nil => rfl
  | cons c cs ih => simp [hasPre, ih]

theorem trimPre_append (t r : Str) : trimPre (t ++ r) t = r := by
  simp [trimPre, hasPre_append, List.drop_left]

theorem hasSuf_append (v t : Str) : hasSuf (v ++ t) t = true := by
  simp [hasSuf, List.reverse_append, hasPre_append]

theorem trimSuf_append (v t : Str) : trimSuf (v ++ t) t = v := by
  simp [trimSuf, hasSuf_append, List.take_left]

/-- C7: Round-trip of target-filename encoding. `versionFromTarget`
recovers the version from `{binary}-{v}.tar.gz` for every binary kind and
every version string `v` — in particular for every well-formed semver
string. (`strings.TrimSuffix` removes only the final `.tar.gz`
occurrence, so versions whose pre-release happens to end in `.tar.gz`
also round-trip.) -/
theorem C7_versionFromTarget_round_trip (binary : Binary) (v : Str) :
    versionFromTarget binary (binaryName binary ++ "-".toList ++ v ++ ".tar.gz".toList) = v := by
  have h1 : binaryName binary ++ "-".toList ++ v ++ ".tar.gz".toList
      = (binaryName binary ++ "-".toList) ++ (v ++ ".tar.gz".toList) := by
    simp [List.append_assoc]
  rw [versionFromTarget, h1, trimPre_append, trimSuf_append]

/-! ## Semantic versions

Modelled from the spec (§3): «a tuple parsed from the target filename.
Ordering is strictly semver (major.minor.patch, with optional
pre-release). Versions that do not parse are treated as *invalid*».
The parser and comparator stand in for the third-party
`Masterminds/semver` library used by `sortedVersionsInLibrary`. -/

/-- Split a string at every occurrence of `sep` (like `strings.Split`). -/
def splitOnChar (sep : Char) : Str → List Str
  | [] => [[]]
  | c :: cs =>
    match splitOnChar sep cs with
    | [] => if c == sep then [[], []] else [[c]]
    | y :: ys => if c == sep then [] :: y :: ys else (c :: y) :: ys

/-- Split a string at the first occurrence of `sep`, returning the part
before it and (when `sep` occurs) the part after it. -/
def breakAt (sep : Char) : Str → Str × Option Str
  | [] => ([], none)
  | c :: cs =>
    if c == sep then ([], some cs)
    else
      let r := breakAt sep cs
      (c :: r.1, r.2)

def isDigitCh (c : Char) : Bool :=
  48 ≤ c.toNat && c.toNat ≤ 57

def digitsToNat (s : Str) : Nat :=
  s.foldl (fun n c => n * 10 + (c.toNat - 48)) 0

/-- Parse a numeric version component: nonempty, all digits, no leading
zeros (strict semver). -/
def parseNumericId (s : Str) : Option Nat :=
  if s.isEmpty then none
  else if !s.all isDigitCh then none
  else if 1 < s.length && s.headD ' ' == '0' then none
  else some (digitsToNat s)

def isIdentCh (c : Char) : Bool :=
  isDigitCh c || (65 ≤ c.toNat && c.toNat ≤ 90) || (97 ≤ c.toNat && c.toNat ≤ 122) || c == '-'

/-- A valid pre-release identifier: nonempty alphanumerics/hyphens, and a
purely numeric identifier must not have leading zeros. -/
def validPreId (s : Str) : Bool :=
  !s.isEmpty && s.all isIdentCh && !(s.all isDigitCh && 1 < s.length && s.headD ' ' == '0')

def validPre (s : Str) : Bool :=
  !s.isEmpty && (splitOnChar '.' s).all validPreId

/-- A parsed semantic version: `major.minor.patch` with optional
pre-release (stored verbatim). -/
structure SemVer where
  major : Nat
  minor : Nat
  patch : Nat
  pre : Option Str
deriving DecidableEq

/-- Parse `major.minor.patch[-pre]`; `none` when the string is not a
well-formed semantic version. -/
def parseSemver (s : Str) : Option SemVer :=
  let core := (breakAt '-' s).1
  let pre := (breakAt '-' s).2
  match splitOnChar '.' core with
  | [a, b, c] =>
    match parseNumericId a, parseNumericId b, parseNumericId c with
    | some ma, some mb, some mc =>
      match pre with
      | none => some ⟨ma, mb, mc, none⟩
      | some p => if validPre p then some ⟨ma, mb, mc, some p⟩ else none
    | _, _, _ => none
  | _ => none

def cmpNat (a b : Nat) : Ordering :=
  if a < b then .lt else if b < a then .gt else .eq

def charCmp (a b : Char) : Ordering :=
  cmpNat a.toNat b.toNat

def listCharCmp : Str → Str → Ordering
  | [], [] => .eq
  | [], _ :: _ => .lt
  | _ :: _, [] => .gt
  | a :: as, b :: bs => (charCmp a b).then (listCharCmp as bs)

/-- Compare two pre-release identifiers: numeric identifiers compare
numerically and are lower than alphanumeric ones; alphanumeric
identifiers compare lexically. -/
def preIdCmp (a b : Str) : Ordering :=
  match a.all isDigitCh, b.all isDigitCh with
  | true, true => cmpNat (digitsToNat a) (digitsToNat b)
  | true, false => .lt
  | false, true => .gt
  | false, false => listCharCmp a b

def preListCmp : List Str → List Str → Ordering
  | [], [] => .eq
  | [], _ :: _ => .lt
  | _ :: _, [] => .gt
  | a :: as, b :: bs => (preIdCmp a b).then (preListCmp as bs)

/-- Pre-release precedence: a version with a pre-release is lower than
the same core without one. -/
def preCmp : Option Str → Option Str → Ordering
  | none, none => .eq
  | none, some _ => .gt
  | some _, none => .lt
  | some a, some b => preListCmp (splitOnChar '.' a) (splitOnChar '.' b)

def semverCmp (x y : SemVer) : Ordering :=
  (cmpNat x.major y.major).then
    ((cmpNat x.minor y.minor).then
      ((cmpNat x.patch y.patch).then (preCmp x.pre y.pre)))

/-- `x ≤ y` in semver precedence, used to sort the library ascending. -/
def semverLe (x y : SemVer) : Bool :=
  !(semverCmp x y == .gt)

/-! ## Library state

The on-disk state the update library manager operates on: for each
binary, the version directories under `<base>/<binary>/`, and the shared
staging directory `<staging>/`. -/

/-- One version directory `<base>/<binary>/<name>/`. `probeOk` records
whether the contained executable passes the `--version` liveness probe
(`autoupdate.CheckExecutable`, modelled from the spec as a deterministic
property of the installed executable). -/
structure LibEntry where
  name : Str
  probeOk : Bool
deriving DecidableEq

/-- One entry under the staging directory: its file or directory name and
its byte content (empty for directories). -/
abbrev StagedEntry := Str × List Nat

/-- The filesystem state owned by the update library manager. -/
structure State where
  launcherLib : List LibEntry
  osquerydLib : List LibEntry
  staging : List StagedEntry
deriving DecidableEq

/-- The version directories under `<base>/<binary>/` (`updatesDirectory`). -/
def State.libOf (s : State) : Binary → List LibEntry
  | .launcher => s.launcherLib
  | .osqueryd => s.osquerydLib

/-- Replace the contents of `<base>/<binary>/`. -/
def setLib (s : State) (b : Binary) (l : List LibEntry) : State :=
  match b with
  | .launcher => { s with launcherLib := l }
  | .osqueryd => { s with osquerydLib := l }

/-- `data.TargetFileMeta` as the verifier uses it: the authoritative
length and the digest bundle over all declared hash algorithms (the
digest is kept abstract as an opaque byte bundle; the hash function
itself is a parameter of the operations below). -/
structure TargetFileMeta where
  length : Nat
  digest : List Nat
deriving DecidableEq

/-- `io.LimitReader(resp.Body, localTargetMetadata.Length)` (wix.go:734):
the bytes actually read from the mirror response — at most `length`
bytes, extra bytes silently discarded. -/
def limitedStream (m : TargetFileMeta) (resp : List Nat) : List Nat :=
  resp.take m.length

/-- `Available` (wix.go:677): true iff the version decoded from the
target filename has a directory in the library whose executable passes
the liveness probe. -/
def Available (s : State) (binary : Binary) (targetFilename : Str) : Bool :=
  (s.libOf binary).any fun e => e.name == versionFromTarget binary targetFilename && e.probeOk

/-- `stageAndVerifyUpdate` (wix.go:722): reads at most `m.length` bytes
of the mirror response, simultaneously buffering them and feeding them to
the hasher (`hash`, a parameter standing for go-tuf's
`GenerateTargetFileMeta`); compares actual length and digests with the
supplied metadata (`TargetFileMetaEqual`); only after verification
succeeds is the buffer written to `<staging>/<targetFilename>`
(`os.Create` truncates, so a pre-existing staged file of that name is
replaced). Returns the updated state and whether staging succeeded. -/
def stageAndVerifyUpdate (hash : List Nat → List Nat) (s : State) (_binary : Binary)
    (targetFilename : Str) (m : TargetFileMeta) (resp : List Nat) : State × Bool :=
  let bytesRead := limitedStream m resp
  if bytesRead.length == m.length && hash bytesRead == m.digest then
    ({ s with staging := s.staging.filter (fun e => !(e.1 == targetFilename)) ++ [(targetFilename, bytesRead)] },
      true)
  else
    (s, false)

/-- `moveVerifiedUpdate` (wix.go:766): untars the staged archive into
`<staging>/<version>/`, chmods and probes the executable, and only then
renames the staged directory into `<base>/<binary>/<version>/`. On every
error path the deferred `os.RemoveAll` deletes the staged version
directory again, so the net state is unchanged. `untarOk ar` models
whether the archive `ar` untars cleanly; `probeExe ar` models the
liveness probe on the executable it contains; the rename fails when the
destination directory already exists. -/
def moveVerifiedUpdate (untarOk probeExe : List Nat → Bool) (s : State) (binary : Binary)
    (targetFilename : Str) (ar : List Nat) : State × Bool :=
  let targetVersion := versionFromTarget binary targetFilename
  if !untarOk ar then (s, false)
  else if !probeExe ar then (s, false)
  else if (s.libOf binary).any (fun e => e.name == targetVersion) then (s, false)
  else (setLib s binary (s.libOf binary ++ [⟨targetVersion, probeExe ar⟩]), true)

/-- The removal loop of `tidyStagedUpdates`: `os.RemoveAll` on each glob
match in turn. -/
def removeMatches : List Str → List StagedEntry → List StagedEntry
  | [], st => st
  | mtch :: ms, st => removeMatches ms (st.filter fun e => !(e.1 == mtch))

/-- `tidyStagedUpdates` (wix.go:828): globs `<staging>/*` and removes
every match. The `binary` argument is unused by the source body. -/
def tidyStagedUpdates (_binary : Binary) (s : State) : State :=
  let globbed := s.staging.map Prod.fst
  { s with staging := removeMatches globbed s.staging }

/-- `AddToLibrary` (wix.go:692). Returns the final state, whether the
call returned nil, and how many mirror downloads it performed. The
staged archive content passed on to `moveVerifiedUpdate` is exactly the
buffered `limitedStream m resp` that staging wrote. -/
def AddToLibrary (hash : List Nat → List Nat) (untarOk probeExe : List Nat → Bool)
    (s : State) (binary : Binary) (currentVersion : Str) (targetFilename : Str)
    (m : TargetFileMeta) (resp : List Nat) : State × Bool × Nat :=
  if currentVersion == versionFromTarget binary targetFilename then (s, true, 0)
  else if Available s binary targetFilename then (s, true, 0)
  else
    let staged := stageAndVerifyUpdate hash s binary targetFilename m resp
    if !staged.2 then (tidyStagedUpdates binary staged.1, false, 1)
    else
      let moved := moveVerifiedUpdate untarOk probeExe staged.1 binary targetFilename
        (limitedStream m resp)
      (tidyStagedUpdates binary moved.1, moved.2, 1)

/-! ## The tidy path -/

/-- `removeUpdate` (wix.go:805): `os.RemoveAll` of
`<base>/<binary>/<binaryVersion>/`. -/
def removeUpdate (binaryVersion : Str) (entries : List LibEntry) : List LibEntry :=
  entries.filter fun e => !(e.name == binaryVersion)

/-- The classification loop of `sortedVersionsInLibrary` (wix.go:898):
each directory name either fails `semver.NewVersion` (invalid), fails the
liveness probe (invalid), or is valid with its parsed version. -/
def classifyEntries : List LibEntry → List (Str × SemVer) × List Str
  | [] => ([], [])
  | e :: rest =>
    let r := classifyEntries rest
    match parseSemver e.name with
    | none => (r.1, e.name :: r.2)
    | some v => if e.probeOk then ((e.name, v) :: r.1, r.2) else (r.1, e.name :: r.2)

/-- `sortedVersionsInLibrary` (wix.go:890): returns the valid version
names sorted ascending by semver precedence, and the invalid names. -/
def sortedVersionsInLibrary (entries : List LibEntry) : List Str × List Str :=
  let r := classifyEntries entries
  (((r.1.insertionSort fun a b => semverLe a.2 b.2 = true).map Prod.fst), r.2)

def numberOfVersionsToKeep : Nat := 3

/-- The pruning loop of `tidyUpdateLibrary` (wix.go:870), walking the
valid versions from most recent to oldest (so applied to the *reversed*
ascending list): always skip the currently running version; count kept
non-running versions; once `numberOfVersionsToKeep - 1` are kept, remove
the rest. Returns the versions removed. -/
def versionsToRemove (currentRunningVersion : Str) (kept : Nat) : List Str → List Str
  | [] => []
  | v :: rest =>
    if v == currentRunningVersion then versionsToRemove currentRunningVersion kept rest
    else if numberOfVersionsToKeep - 1 ≤ kept then
      v :: versionsToRemove currentRunningVersion kept rest
    else versionsToRemove currentRunningVersion (kept + 1) rest

/-- `tidyUpdateLibrary` (wix.go:845): no-op without a current running
version; removes every invalid version; when more than
`numberOfVersionsToKeep` valid versions remain, prunes per the loop
above. -/
def tidyUpdateLibrary (currentRunningVersion : Str) (entries : List LibEntry) : List LibEntry :=
  if currentRunningVersion == [] then entries
  else
    let r := sortedVersionsInLibrary entries
    let entries1 := r.2.foldl (fun acc inv => removeUpdate inv acc) entries
    if r.1.length ≤ numberOfVersionsToKeep then entries1
    else
      (versionsToRemove currentRunningVersion 0 r.1.reverse).foldl
        (fun acc v => removeUpdate v acc) entries1

/-- `TidyLibrary` (wix.go:815): under the binary's lock, first purge the
staging directory, then tidy the binary's update library. -/
def TidyLibrary (s : State) (binary : Binary) (currentVersion : Str) : State :=
  let s1 := tidyStagedUpdates binary s
  setLib s1 binary (tidyUpdateLibrary currentVersion (s1.libOf binary))

/-! ## The Windows executable-permission check
(`pkg/autoupdate/helpers_windows.go`) -/

/-- The error returned by `os.Stat`, as far as the check distinguishes
it: absent (`nil`), a not-exist error, or any other error (e.g.
permission denied). -/
inductive StatError where
  | notExist
  | permissionDenied
  | other
deriving DecidableEq

/-- The `os.FileInfo` for a path, when `os.Stat` succeeds. -/
structure FileInfo where
  isDir : Bool
deriving DecidableEq

/-- `os.IsNotExist`. -/
def isNotExist : Option StatError → Bool
  | some .notExist => true
  | _ => false

/-- Outcome of `checkExecutablePermissions`: a nil return, an error
return, or a runtime panic from calling a method on a nil
`os.FileInfo`. -/
inductive CheckOutcome where
  | retNil
  | retErr (msg : String)
  | nilDeref
deriving DecidableEq

/-- `checkExecutablePermissions` (helpers_windows.go:19), with the
result of `os.Stat` supplied as `(stat, err)`; `os.Stat` returns a nil
`FileInfo` exactly when it returns a non-nil error. The source `switch`
evaluates its cases in order: `os.IsNotExist(err)`, then `stat.IsDir()`
— which dereferences `stat` — then `err != nil`, then the `.exe` suffix
check. -/
def checkExecutablePermissions (potentialBinary : Str) (stat : Option FileInfo)
    (err : Option StatError) : CheckOutcome :=
  if potentialBinary == [] then .retErr "empty string isn't executable"
  else if isNotExist err then .retErr "No such file"
  else
    match stat with
    | none => .nilDeref
    | some st =>
      if st.isDir then .retErr "is a directory"
      else if err.isSome then .retErr "statting file"
      else if !hasSuf potentialBinary ".exe".toList then .retErr "not executable"
      else .retNil

/-! ## Helper lemmas -/

theorem mem_removeFold (l : List Str) (es : List LibEntry) (e : LibEntry) :
    e ∈ l.foldl (fun acc v => removeUpdate v acc) es ↔ e ∈ es ∧ e.name ∉ l := by
  induction l generalizing es with
  | nil => simp
  | cons v vs ih =>
    rw [List.foldl_cons, ih]
    simp only [removeUpdate, List.mem_filter, List.mem_cons, not_or, Bool.not_eq_true',
      beq_eq_false_iff_ne, ne_eq]
    tauto

theorem removeMatches_eq_nil (ms : List Str) (st : List StagedEntry)
    (h : ∀ e ∈ st, e.1 ∈ ms) : removeMatches ms st = [] := by
  induction ms generalizing st with
  | nil =>
    cases st with
    | nil => rfl
    | cons e es => exact absurd (h e (by simp)) (by simp)
  | cons mtch ms ih =>
    apply ih
    intro e he
    rw [List.mem_filter] at he
    have h2 : ¬ e.1 = mtch := by
      have := he.2
      simpa using this
    rcases List.mem_cons.1 (h e he.1) with h1 | h1
    · exact absurd h1 h2
    · exact h1

theorem tidyStagedUpdates_eq (b : Binary) (s : State) :
    tidyStagedUpdates b s = { s with staging := [] } := by
  simp only [tidyStagedUpdates]
  rw [removeMatches_eq_nil]
  intro e he
  exact List.mem_map_of_mem Prod.fst he

@[simp] theorem libOf_setLib_same (s : State) (b : Binary) (l : List LibEntry) :
    (setLib s b l).libOf b = l := by
  cases b <;> rfl

@[simp] theorem setLib_staging (s : State) (b : Binary) (l : List LibEntry) :
    (setLib s b l).staging = s.staging := by
  cases b <;> rfl

theorem setLib_libOf_self (s : State) (b : Binary) : setLib s b (s.libOf b) = s := by
  cases b <;> rfl

@[simp] theorem libOf_erase_staging (s : State) (b : Binary) :
    ({ s with staging := [] } : State).libOf b = s.libOf b := by
  cases b <;> rfl

theorem versionsToRemove_eq (cur : Str) (D : List Str) :
    ∀ k, versionsToRemove cur k D
      = (D.filter fun v => !(v == cur)).drop (numberOfVersionsToKeep - 1 - k) := by
  induction D with
  | nil => intro k; simp [versionsToRemove]
  | cons v rest ih =>
    intro k
    cases hv : (v == cur) with
    | true => simp [versionsToRemove, hv, ih k]
    | false =>
      by_cases hk : numberOfVersionsToKeep - 1 ≤ k
      · have hz : numberOfVersionsToKeep - 1 - k = 0 := by omega
        simp [versionsToRemove, hv, hk, ih k, hz]
      · have hsucc : numberOfVersionsToKeep - 1 - k
            = (numberOfVersionsToKeep - 1 - (k + 1)) + 1 := by
          simp only [numberOfVersionsToKeep] at hk ⊢
          omega
        simp only [versionsToRemove, hv, Bool.false_eq_true, if_false, if_neg hk, ih (k + 1),
          hsucc]
        simp [List.filter_cons, hv]

theorem mem_versionsToRemove_ne (cur : Str) (k : Nat) (D : List Str) (v : Str)
    (h : v ∈ versionsToRemove cur k D) : ¬ v = cur := by
  rw [versionsToRemove_eq] at h
  have h2 := List.mem_of_mem_drop h
  have h3 := List.of_mem_filter h2
  simpa using h3

theorem classify_cons_none (e : LibEntry) (rest : List LibEntry)
    (hp : parseSemver e.name = none) :
    classifyEntries (e :: rest)
      = ((classifyEntries rest).1, e.name :: (classifyEntries rest).2) := by
  simp [classifyEntries, hp]

theorem classify_cons_valid (e : LibEntry) (rest : List LibEntry) (v : SemVer)
    (hp : parseSemver e.name = some v) (hb : e.probeOk = true) :
    classifyEntries (e :: rest)
      = ((e.name, v) :: (classifyEntries rest).1, (classifyEntries rest).2) := by
  simp [classifyEntries, hp, hb]

theorem classify_cons_badprobe (e : LibEntry) (rest : List LibEntry) (v : SemVer)
    (hp : parseSemver e.name = some v) (hb : e.probeOk = false) :
    classifyEntries (e :: rest)
      = ((classifyEntries rest).1, e.name :: (classifyEntries rest).2) := by
  simp [classifyEntries, hp, hb]

theorem classify_invalid_subset (es : List LibEntry) :
    ∀ n ∈ (classifyEntries es).2, n ∈ es.map LibEntry.name := by
  induction es with
  | nil => simp [classifyEntries]
  | cons e rest ih =>
    intro n hn
    cases hp : parseSemver e.name with
    | none =>
      rw [classify_cons_none e rest hp] at hn
      rcases List.mem_cons.1 hn with h | h
      · simp [h]
      · simp only [List.map_cons, List.mem_cons]
        exact Or.inr (ih n h)
    | some v =>
      cases hb : e.probeOk with
      | true =>
        rw [classify_cons_valid e rest v hp hb] at hn
        simp only [List.map_cons, List.mem_cons]
        exact Or.inr (ih n hn)
      | false =>
        rw [classify_cons_badprobe e rest v hp hb] at hn
        rcases List.mem_cons.1 hn with h | h
        · simp [h]
        · simp only [List.map_cons, List.mem_cons]
          exact Or.inr (ih n h)

theorem classify_valid_sublist (es : List LibEntry) :
    ((classifyEntries es).1.map Prod.fst).Sublist (es.map LibEntry.name) := by
  induction es with
  | nil => simp [classifyEntries]
  | cons e rest ih =>
    cases hp : parseSemver e.name with
    | none =>
      rw [classify_cons_none e rest hp]
      exact ih.cons e.name
    | some v =>
      cases hb : e.probeOk with
      | true =>
        rw [classify_cons_valid e rest v hp hb]
        simpa using ih.cons₂ e.name
      | false =>
        rw [classify_cons_badprobe e rest v hp hb]
        exact ih.cons e.name

theorem mem_classify_valid (es : List LibEntry) (e : LibEntry) (v : SemVer)
    (he : e ∈ es) (hp : parseSemver e.name = some v) (hb : e.probeOk = true) :
    (e.name, v) ∈ (classifyEntries es).1 := by
  induction es with
  | nil => cases he
  | cons f rest ih =>
    rcases List.mem_cons.1 he with h | h
    · subst h
      rw [classify_cons_valid e rest v hp hb]
      simp
    · cases hpf : parseSemver f.name with
      | none =>
        rw [classify_cons_none f rest hpf]
        exact ih h
      | some w =>
        cases hbf : f.probeOk with
        | true =>
          rw [classify_cons_valid f rest w hpf hbf]
          exact List.mem_cons_of_mem _ (ih h)
        | false =>
          rw [classify_cons_badprobe f rest w hpf hbf]
          exact ih h

theorem not_mem_invalid (es : List LibEntry) (e : LibEntry) (v : SemVer)
    (hd : (es.map LibEntry.name).Nodup) (he : e ∈ es)
    (hp : parseSemver e.name = some v) (hb : e.probeOk = true) :
    e.name ∉ (classifyEntries es).2 := by
  induction es with
  | nil => simp [classifyEntries]
  | cons f rest ih =>
    rw [List.map_cons, List.nodup_cons] at hd
    rcases List.mem_cons.1 he with h | h
    · subst h
      rw [classify_cons_valid e rest v hp hb]
      intro hmem
      exact hd.1 (classify_invalid_subset rest e.name hmem)
    · have hne : ¬ f.name = e.name := by
        intro hEq
        exact hd.1 (hEq ▸ List.mem_map_of_mem LibEntry.name h)
      cases hpf : parseSemver f.name with
      | none =>
        rw [classify_cons_none f rest hpf]
        intro hmem
        rcases List.mem_cons.1 hmem with h2 | h2
        · exact hne h2.symm
        · exact ih hd.2 h h2
      | some w =>
        cases hbf : f.probeOk with
        | true =>
          rw [classify_cons_valid f rest w hpf hbf]
          exact ih hd.2 h
        | false =>
          rw [classify_cons_badprobe f rest w hpf hbf]
          intro hmem
          rcases List.mem_cons.1 hmem with h2 | h2
          · exact hne h2.symm
          · exact ih hd.2 h h2

theorem classify_invalid_nil (es : List LibEntry)
    (h : ∀ e ∈ es, (parseSemver e.name).isSome ∧ e.probeOk = true) :
    (classifyEntries es).2 = [] := by
  induction es with
  | nil => simp [classifyEntries]
  | cons e rest ih =>
    have he := h e (by simp)
    rcases Option.isSome_iff_exists.1 he.1 with ⟨v, hv⟩
    rw [classify_cons_valid e rest v hv he.2]
    exact ih fun f hf => h f (List.mem_cons_of_mem _ hf)

theorem sortedVersions_perm (es : List LibEntry) :
    ((sortedVersionsInLibrary es).1).Perm ((classifyEntries es).1.map Prod.fst) :=
  (List.perm_insertionSort _ _).map Prod.fst

theorem mem_sortedVersions (es : List LibEntry) (e : LibEntry) (v : SemVer)
    (he : e ∈ es) (hp : parseSemver e.name = some v) (hb : e.probeOk = true) :
    e.name ∈ (sortedVersionsInLibrary es).1 :=
  (sortedVersions_perm es).mem_iff.2
    (List.mem_map_of_mem Prod.fst (mem_classify_valid es e v he hp hb))

theorem nodup_sortedVersions (es : List LibEntry)
    (hd : (es.map LibEntry.name).Nodup) : ((sortedVersionsInLibrary es).1).Nodup :=
  ((sortedVersions_perm es).nodup_iff).2 ((hd.sublist (classify_valid_sublist es)))

theorem TidyLibrary_libOf (s : State) (b : Binary) (cur : Str) :
    (TidyLibrary s b cur).libOf b = tidyUpdateLibrary cur (s.libOf b) := by
  simp [TidyLibrary, tidyStagedUpdates_eq]

theorem TidyLibrary_staging (s : State) (b : Binary) (cur : Str) :
    (TidyLibrary s b cur).staging = [] := by
  simp [TidyLibrary, tidyStagedUpdates_eq]

theorem mem_tidyUpdateLibrary (cur : Str) (es : List LibEntry) (e : LibEntry)
    (hc : ¬ cur = []) :
    e ∈ tidyUpdateLibrary cur es ↔
      e ∈ es ∧ e.name ∉ (sortedVersionsInLibrary es).2 ∧
        ((sortedVersionsInLibrary es).1.length ≤ numberOfVersionsToKeep ∨
         e.name ∉ versionsToRemove cur 0 (sortedVersionsInLibrary es).1.reverse) := by
  have hc2 : (cur == []) = false := beq_eq_false_iff_ne.2 hc
  simp only [tidyUpdateLibrary, hc2, Bool.false_eq_true, if_false]
  by_cases hl : (sortedVersionsInLibrary es).1.length ≤ numberOfVersionsToKeep
  · simp only [if_pos hl, mem_removeFold]
    tauto
  · simp only [if_neg hl, mem_removeFold]
    constructor
    · rintro ⟨⟨h1, h2⟩, h3⟩
      exact ⟨h1, h2, Or.inr h3⟩
    · rintro ⟨h1, h2, h3 | h3⟩
      · exact absurd h3 hl
      · exact ⟨⟨h1, h2⟩, h3⟩

/-! ## C2: the currently running version under tidy -/

/-- C2 (counterexample): the claim «TidyLibrary never removes the
version directory whose name equals the current running version,
including when its executable fails the liveness probe» is false. With a
library holding exactly one directory `1.0.0` whose executable fails the
probe, and current running version `1.0.0`, tidying classifies the
directory as invalid and removes it: the resulting library is empty. -/
theorem C2_counterexample :
    (⟨"1.0.0".toList, false⟩ : LibEntry)
        ∈ (State.mk [⟨"1.0.0".toList, false⟩] [] []).libOf .launcher
      ∧ (TidyLibrary (State.mk [⟨"1.0.0".toList, false⟩] [] [])
          .launcher "1.0.0".toList).libOf .launcher = [] := by
  constructor
  · simp [State.libOf]
  · decide

/-- C2 (amended): the pruning loop always skips the entry equal to
`current_running_version`, so tidying never removes the current running
version's directory *provided it is valid* (its name parses as semver
and its executable passes the liveness probe); a same-named directory
that fails validation is removed as invalid, which is what forces the
amendment. Directory names are distinct on a real filesystem, whence the
`Nodup` hypothesis. -/
theorem C2_current_version_preserved (s : State) (b : Binary) (cur : Str) (e : LibEntry)
    (hd : ((s.libOf b).map LibEntry.name).Nodup)
    (he : e ∈ s.libOf b) (hname : e.name = cur)
    (hp : (parseSemver e.name).isSome) (hb : e.probeOk = true) :
    e ∈ (TidyLibrary s b cur).libOf b := by
  rw [TidyLibrary_libOf]
  by_cases hc : cur = []
  · subst hc
    simpa [tidyUpdateLibrary] using he
  · rcases Option.isSome_iff_exists.1 hp with ⟨v, hv⟩
    rw [mem_tidyUpdateLibrary cur _ e hc]
    have hinv : e.name ∉ (sortedVersionsInLibrary (s.libOf b)).2 :=
      not_mem_invalid _ e v hd he hv hb
    refine ⟨he, hinv, Or.inr ?_⟩
    intro hmem
    exact mem_versionsToRemove_ne _ _ _ _ hmem hname

/-- C2 (witness): a concrete valid current version survives tidying. -/
theorem C2_witness :
    (⟨"1.0.0".toList, true⟩ : LibEntry)
        ∈ (TidyLibrary (State.mk [⟨"1.0.0".toList, true⟩] [] [])
            .launcher "1.0.0".toList).libOf .launcher :=
  C2_current_version_preserved (State.mk [⟨"1.0.0".toList, true⟩] [] [])
    .launcher "1.0.0".toList ⟨"1.0.0".toList, true⟩
    (by simp [State.libOf]) (by simp [State.libOf]) rfl (by decide) rfl

/-! ## C1: retention policy of tidy -/

/-- C1 (counterexample): the claim «tidy retains the three most recent
valid versions plus the currently running one (up to four directories)»
is false. With five valid versions `1.0.0 … 1.4.0` and running version
`1.0.0`, the code keeps only the running version plus the *two* most
recent others: `1.2.0` — one of the three most recent valid versions —
is removed, leaving three directories, not four. -/
theorem C1_counterexample :
    (TidyLibrary
        (State.mk [⟨"1.0.0".toList, true⟩, ⟨"1.1.0".toList, true⟩, ⟨"1.2.0".toList, true⟩,
          ⟨"1.3.0".toList, true⟩, ⟨"1.4.0".toList, true⟩] [] [])
        .launcher "1.0.0".toList).libOf .launcher
      = [⟨"1.0.0".toList, true⟩, ⟨"1.3.0".toList, true⟩, ⟨"1.4.0".toList, true⟩]
    ∧ (⟨"1.2.0".toList, true⟩ : LibEntry)
        ∉ (TidyLibrary
            (State.mk [⟨"1.0.0".toList, true⟩, ⟨"1.1.0".toList, true⟩, ⟨"1.2.0".toList, true⟩,
              ⟨"1.3.0".toList, true⟩, ⟨"1.4.0".toList, true⟩] [] [])
            .launcher "1.0.0".toList).libOf .launcher := by
  constructor
  · decide
  · decide

/-- C1 (amended): for a library in which every version directory parses
as semver and passes the liveness probe, with distinct directory names
and a nonempty current running version: when at most
`numberOfVersionsToKeep` (three) valid versions exist, tidy removes
nothing; when more exist, tidy retains exactly the currently running
version plus the `numberOfVersionsToKeep - 1` (two) most recent
non-running valid versions — not «the three most recent plus the running
one» as claimed. -/
theorem C1_retention_amended (s : State) (b : Binary) (cur : Str)
    (hvalid : ∀ e ∈ s.libOf b, (parseSemver e.name).isSome ∧ e.probeOk = true)
    (hd : ((s.libOf b).map LibEntry.name).Nodup)
    (hc : ¬ cur = []) :
    ((sortedVersionsInLibrary (s.libOf b)).1.length ≤ numberOfVersionsToKeep →
      (TidyLibrary s b cur).libOf b = s.libOf b) ∧
    (numberOfVersionsToKeep < (sortedVersionsInLibrary (s.libOf b)).1.length →
      ∀ e, e ∈ (TidyLibrary s b cur).libOf b ↔
        e ∈ s.libOf b ∧ (e.name = cur ∨
          e.name ∈ ((sortedVersionsInLibrary (s.libOf b)).1.reverse.filter
            fun v => !(v == cur)).take (numberOfVersionsToKeep - 1))) := by
  have hc2 : (cur == []) = false := beq_eq_false_iff_ne.2 hc
  have hinv : (sortedVersionsInLibrary (s.libOf b)).2 = [] := classify_invalid_nil _ hvalid
  constructor
  · intro hl
    rw [TidyLibrary_libOf]
    simp only [tidyUpdateLibrary, hc2, Bool.false_eq_true, if_false, if_pos hl, hinv,
      List.foldl_nil]
  · intro hl
    intro e
    rw [TidyLibrary_libOf, mem_tidyUpdateLibrary cur _ e hc, hinv]
    have hrem : versionsToRemove cur 0 (sortedVersionsInLibrary (s.libOf b)).1.reverse
        = (((sortedVersionsInLibrary (s.libOf b)).1.reverse.filter
            fun v => !(v == cur))).drop (numberOfVersionsToKeep - 1) := by
      rw [versionsToRemove_eq]
      simp
    have hnd : (((sortedVersionsInLibrary (s.libOf b)).1.reverse.filter
        fun v => !(v == cur))).Nodup :=
      (List.nodup_reverse.2 (nodup_sortedVersions _ hd)).filter _
    have hsplit := List.take_append_drop (numberOfVersionsToKeep - 1)
      (((sortedVersionsInLibrary (s.libOf b)).1.reverse.filter fun v => !(v == cur)))
    have hdisj := (List.nodup_append.1 (hsplit ▸ hnd)).2.2
    constructor
    · rintro ⟨h1, _, h3 | h3⟩
      · exact absurd h3 (not_le.2 hl)
      · refine ⟨h1, ?_⟩
        by_cases hne : e.name = cur
        · exact Or.inl hne
        · rcases hvalid e h1 with ⟨hp, hb⟩
          rcases Option.isSome_iff_exists.1 hp with ⟨v, hv⟩
          have hmemV : e.name ∈ (sortedVersionsInLibrary (s.libOf b)).1 :=
            mem_sortedVersions _ e v h1 hv hb
          have hmemF : e.name ∈ ((sortedVersionsInLibrary (s.libOf b)).1.reverse.filter
              fun v => !(v == cur)) := by
            rw [List.mem_filter]
            exact ⟨List.mem_reverse.2 hmemV, by simp [hne]⟩
          rw [hrem] at h3
          rw [← hsplit, List.mem_append] at hmemF
          rcases hmemF with h4 | h4
          · exact Or.inr h4
          · exact absurd h4 h3
    · rintro ⟨h1, h2⟩
      rcases hvalid e h1 with ⟨hp, hb⟩
      rcases Option.isSome_iff_exists.1 hp with ⟨v, hv⟩
      refine ⟨h1, by simp, Or.inr ?_⟩
      rw [hrem]
      rcases h2 with h2 | h2
      · intro hmem
        have := List.of_mem_filter (List.mem_of_mem_drop hmem)
        simp [h2] at this
      · intro hmem
        exact hdisj h2 hmem

/-- C1 (witness): in the five-version library with running version
`1.0.0`, the most recent version `1.4.0` is retained, by the amended
retention theorem. -/
theorem C1_witness :
    (⟨"1.4.0".toList, true⟩ : LibEntry)
      ∈ (TidyLibrary
          (State.mk [⟨"1.0.0".toList, true⟩, ⟨"1.1.0".toList, true⟩, ⟨"1.2.0".toList, true⟩,
            ⟨"1.3.0".toList, true⟩, ⟨"1.4.0".toList, true⟩] [] [])
          .launcher "1.0.0".toList).libOf .launcher :=
  ((C1_retention_amended
      (State.mk [⟨"1.0.0".toList, true⟩, ⟨"1.1.0".toList, true⟩, ⟨"1.2.0".toList, true⟩,
        ⟨"1.3.0".toList, true⟩, ⟨"1.4.0".toList, true⟩] [] [])
      .launcher "1.0.0".toList (by decide) (by decide) (by decide)).2
    (by decide) ⟨"1.4.0".toList, true⟩).2 ⟨by decide, Or.inr (by decide)⟩

theorem stageAndVerify_libOf (hash : List Nat → List Nat) (s : State) (b : Binary)
    (t : Str) (m : TargetFileMeta) (resp : List Nat) (b' : Binary) :
    ((stageAndVerifyUpdate hash s b t m resp).1).libOf b' = s.libOf b' := by
  by_cases hc : ((limitedStream m resp).length == m.length
      && hash (limitedStream m resp) == m.digest) = true
  · simp only [stageAndVerifyUpdate, if_pos hc]
    cases b' <;> rfl
  · simp only [stageAndVerifyUpdate, if_neg hc]

theorem stageAndVerify_fail (hash : List Nat → List Nat) (s : State) (b : Binary)
    (t : Str) (m : TargetFileMeta) (resp : List Nat)
    (hmm : ¬ hash (limitedStream m resp) = m.digest) :
    stageAndVerifyUpdate hash s b t m resp = (s, false) := by
  have h : (hash (limitedStream m resp) == m.digest) = false := beq_eq_false_iff_ne.2 hmm
  simp [stageAndVerifyUpdate, h]

theorem stageAndVerify_success_state (hash : List Nat → List Nat) (s : State) (b : Binary)
    (t : Str) (m : TargetFileMeta) (resp : List Nat)
    (h : (stageAndVerifyUpdate hash s b t m resp).2 = true) :
    (stageAndVerifyUpdate hash s b t m resp).1
      = { s with staging := s.staging.filter (fun e => !(e.1 == t))
            ++ [(t, limitedStream m resp)] } := by
  by_cases hc : ((limitedStream m resp).length == m.length
      && hash (limitedStream m resp) == m.digest) = true
  · simp only [stageAndVerifyUpdate, if_pos hc]
  · exfalso
    simp only [stageAndVerifyUpdate, if_neg hc] at h
    cases h

theorem moveVerified_fail (untarOk probeExe : List Nat → Bool) (s : State) (b : Binary)
    (t : Str) (ar : List Nat)
    (h : (moveVerifiedUpdate untarOk probeExe s b t ar).2 = false) :
    (moveVerifiedUpdate untarOk probeExe s b t ar).1 = s := by
  by_cases h1 : (!untarOk ar) = true
  · simp [moveVerifiedUpdate, h1]
  · by_cases h2 : (!probeExe ar) = true
    · simp [moveVerifiedUpdate, h1, h2]
    · by_cases h3 : ((s.libOf b).any fun e => e.name == versionFromTarget b t) = true
      · simp [moveVerifiedUpdate, h1, h2, h3]
      · exfalso
        simp [moveVerifiedUpdate, h1, h2, h3] at h

theorem moveVerified_success (untarOk probeExe : List Nat → Bool) (s : State) (b : Binary)
    (t : Str) (ar : List Nat)
    (h : (moveVerifiedUpdate untarOk probeExe s b t ar).2 = true) :
    probeExe ar = true
    ∧ (moveVerifiedUpdate untarOk probeExe s b t ar).1
        = setLib s b (s.libOf b ++ [⟨versionFromTarget b t, probeExe ar⟩]) := by
  by_cases h1 : (!untarOk ar) = true
  · exfalso
    simp [moveVerifiedUpdate, h1] at h
  · by_cases h2 : (!probeExe ar) = true
    · exfalso
      simp [moveVerifiedUpdate, h1, h2] at h
    · by_cases h3 : ((s.libOf b).any fun e => e.name == versionFromTarget b t) = true
      · exfalso
        simp [moveVerifiedUpdate, h1, h2, h3] at h
      · refine ⟨by simpa using h2, ?_⟩
        simp [moveVerifiedUpdate, h1, h2, h3]

theorem AddToLibrary_eq_of_cur (hash : List Nat → List Nat) (untarOk probeExe : List Nat → Bool)
    (s : State) (b : Binary) (cur t : Str) (m : TargetFileMeta) (resp : List Nat)
    (h1 : (cur == versionFromTarget b t) = true) :
    AddToLibrary hash untarOk probeExe s b cur t m resp = (s, true, 0) := by
  simp [AddToLibrary, h1]

theorem AddToLibrary_eq_of_available (hash : List Nat → List Nat)
    (untarOk probeExe : List Nat → Bool)
    (s : State) (b : Binary) (cur t : Str) (m : TargetFileMeta) (resp : List Nat)
    (h1 : (cur == versionFromTarget b t) = false) (h2 : Available s b t = true) :
    AddToLibrary hash untarOk probeExe s b cur t m resp = (s, true, 0) := by
  simp [AddToLibrary, h1, h2]

theorem AddToLibrary_eq_stage_fail (hash : List Nat → List Nat)
    (untarOk probeExe : List Nat → Bool)
    (s : State) (b : Binary) (cur t : Str) (m : TargetFileMeta) (resp : List Nat)
    (h1 : (cur == versionFromTarget b t) = false) (h2 : Available s b t = false)
    (h3 : (stageAndVerifyUpdate hash s b t m resp).2 = false) :
    AddToLibrary hash untarOk probeExe s b cur t m resp
      = (tidyStagedUpdates b (stageAndVerifyUpdate hash s b t m resp).1, false, 1) := by
  simp [AddToLibrary, h1, h2, h3]

theorem AddToLibrary_eq_move (hash : List Nat → List Nat)
    (untarOk probeExe : List Nat → Bool)
    (s : State) (b : Binary) (cur t : Str) (m : TargetFileMeta) (resp : List Nat)
    (h1 : (cur == versionFromTarget b t) = false) (h2 : Available s b t = false)
    (h3 : (stageAndVerifyUpdate hash s b t m resp).2 = true) :
    AddToLibrary hash untarOk probeExe s b cur t m resp
      = (tidyStagedUpdates b
          (moveVerifiedUpdate untarOk probeExe (stageAndVerifyUpdate hash s b t m resp).1
            b t (limitedStream m resp)).1,
        (moveVerifiedUpdate untarOk probeExe (stageAndVerifyUpdate hash s b t m resp).1
            b t (limitedStream m resp)).2, 1) := by
  simp [AddToLibrary, h1, h2, h3]

/-! ## C9: tidy with an empty current running version -/

/-- C9: when the current running version is the empty string,
`TidyLibrary` purges the staging directory but leaves every version
directory of every binary untouched — `tidyUpdateLibrary` bails out
before classifying, so neither invalid-version removal nor pruning
occurs, for every library state. -/
theorem C9_empty_current_no_prune (s : State) (b : Binary) :
    TidyLibrary s b [] = { s with staging := [] } := by
  have h1 : tidyUpdateLibrary [] (({ s with staging := [] } : State).libOf b)
      = ({ s with staging := [] } : State).libOf b := by
    simp [tidyUpdateLibrary]
  simp only [TidyLibrary, tidyStagedUpdates_eq, h1, setLib_libOf_self]

/-! ## C8: the staging purge -/

theorem AddToLibrary_staging_empty (hash : List Nat → List Nat)
    (untarOk probeExe : List Nat → Bool)
    (s : State) (b : Binary) (cur t : Str) (m : TargetFileMeta) (resp : List Nat)
    (h1 : ¬ cur = versionFromTarget b t) (h2 : Available s b t = false) :
    (AddToLibrary hash untarOk probeExe s b cur t m resp).1.staging = [] := by
  have h1' : (cur == versionFromTarget b t) = false := beq_eq_false_iff_ne.2 h1
  cases h3 : (stageAndVerifyUpdate hash s b t m resp).2 with
  | false =>
    rw [AddToLibrary_eq_stage_fail hash untarOk probeExe s b cur t m resp h1' h2 h3,
      tidyStagedUpdates_eq]
  | true =>
    rw [AddToLibrary_eq_move hash untarOk probeExe s b cur t m resp h1' h2 h3,
      tidyStagedUpdates_eq]

/-- C8 (counterexample): the claim's parenthetical «tidyStagedUpdates
runs on every AddToLibrary exit» is false: when `current_version` equals
the version decoded from the target filename, `AddToLibrary` returns
before registering the deferred purge, and a pre-existing staged entry
survives (had the purge run, the staging directory would be empty). -/
theorem C8_counterexample :
    ¬ ((AddToLibrary (fun l => l) (fun _ => true) (fun _ => true)
        (State.mk [] [] [(['x'], [])]) .launcher "1.0.0".toList
        "launcher-1.0.0.tar.gz".toList ⟨0, []⟩ []).1.staging = []) := by
  decide

/-- C8 (amended): `tidyStagedUpdates` ignores its binary argument and
removes every entry under the shared staging directory — including
staged archives and staged version directories belonging to the other
binary — while leaving both binaries' library directories untouched; it
runs at the start of every `TidyLibrary`, and on every `AddToLibrary`
exit that proceeds past the early no-op returns (not on the
current-version or already-available returns). -/
theorem C8_staging_purge_amended (b b' : Binary) (s : State) (cur t : Str)
    (hash : List Nat → List Nat) (untarOk probeExe : List Nat → Bool)
    (m : TargetFileMeta) (resp : List Nat) :
    tidyStagedUpdates b s = tidyStagedUpdates b' s
    ∧ (tidyStagedUpdates b s).staging = []
    ∧ (tidyStagedUpdates b s).launcherLib = s.launcherLib
    ∧ (tidyStagedUpdates b s).osquerydLib = s.osquerydLib
    ∧ (TidyLibrary s b cur).staging = []
    ∧ (¬ cur = versionFromTarget b t → Available s b t = false →
        (AddToLibrary hash untarOk probeExe s b cur t m resp).1.staging = []) :=
  ⟨by rw [tidyStagedUpdates_eq, tidyStagedUpdates_eq],
   by rw [tidyStagedUpdates_eq],
   by rw [tidyStagedUpdates_eq],
   by rw [tidyStagedUpdates_eq],
   TidyLibrary_staging s b cur,
   fun h1 h2 => AddToLibrary_staging_empty hash untarOk probeExe s b cur t m resp h1 h2⟩

/-- C8 (witness): a concrete download-path call purges the staging
directory, including an entry staged for the other binary. -/
theorem C8_witness :
    (AddToLibrary (fun l => l) (fun _ => true) (fun _ => true)
      (State.mk [] [] [("osqueryd-5.0.0.tar.gz".toList, [9])]) .launcher []
      "launcher-1.0.0.tar.gz".toList ⟨1, [99]⟩ [7]).1.staging = [] :=
  (C8_staging_purge_amended .launcher .osqueryd
    (State.mk [] [] [("osqueryd-5.0.0.tar.gz".toList, [9])]) []
    "launcher-1.0.0.tar.gz".toList (fun l => l) (fun _ => true) (fun _ => true)
    ⟨1, [99]⟩ [7]).2.2.2.2.2 (by decide) (by decide)

/-! ## C3: verification failure leaves no trace -/

/-- C3: for every mirror response whose (length-capped) bytes do not
hash to the digests in the supplied target metadata, `AddToLibrary`
returns an error, both binaries' library directories are unchanged (in
particular no version directory for the target is created), and the
staging directory holds no staged file for the target — the buffer is
written to the staged file path only after verification succeeds, and
the deferred purge removes every staged entry. The two extra hypotheses
say that the call actually reaches the download: otherwise the mirror is
never contacted and there is no response to speak of. -/
theorem C3_verification_failure (hash : List Nat → List Nat)
    (untarOk probeExe : List Nat → Bool)
    (s : State) (b : Binary) (cur t : Str) (m : TargetFileMeta) (resp : List Nat)
    (h1 : ¬ cur = versionFromTarget b t) (h2 : Available s b t = false)
    (hmm : ¬ hash (limitedStream m resp) = m.digest) :
    (AddToLibrary hash untarOk probeExe s b cur t m resp).2.1 = false
    ∧ (∀ b', (AddToLibrary hash untarOk probeExe s b cur t m resp).1.libOf b' = s.libOf b')
    ∧ (AddToLibrary hash untarOk probeExe s b cur t m resp).1.staging = [] := by
  have h1' : (cur == versionFromTarget b t) = false := beq_eq_false_iff_ne.2 h1
  have h3 : (stageAndVerifyUpdate hash s b t m resp).2 = false := by
    rw [stageAndVerify_fail hash s b t m resp hmm]
  have heq := AddToLibrary_eq_stage_fail hash untarOk probeExe s b cur t m resp h1' h2 h3
  rw [heq, stageAndVerify_fail hash s b t m resp hmm, tidyStagedUpdates_eq]
  exact ⟨rfl, fun b' => by cases b' <;> rfl, rfl⟩

/-- C3 (witness): a concrete tampered payload — declared digest `[99]`
but the identity hash of the served byte `[0]` is `[0]` — is rejected,
installs nothing, and leaves staging empty. -/
theorem C3_witness :
    (AddToLibrary (fun l => l) (fun _ => true) (fun _ => true)
      (State.mk [] [] []) .launcher [] "launcher-1.0.0.tar.gz".toList
      ⟨1, [99]⟩ [0]).2.1 = false
    ∧ (∀ b', (AddToLibrary (fun l => l) (fun _ => true) (fun _ => true)
        (State.mk [] [] []) .launcher [] "launcher-1.0.0.tar.gz".toList
        ⟨1, [99]⟩ [0]).1.libOf b' = (State.mk [] [] []).libOf b')
    ∧ (AddToLibrary (fun l => l) (fun _ => true) (fun _ => true)
        (State.mk [] [] []) .launcher [] "launcher-1.0.0.tar.gz".toList
        ⟨1, [99]⟩ [0]).1.staging = [] :=
  C3_verification_failure (fun l => l) (fun _ => true) (fun _ => true)
    (State.mk [] [] []) .launcher [] "launcher-1.0.0.tar.gz".toList
    ⟨1, [99]⟩ [0] (by decide) (by decide) (by decide)

/-! ## C6: the length cap -/

/-- C6: the hasher and the staged file buffer are fed exactly the
length-capped stream `limitedStream m resp = resp.take m.length`, which
never exceeds `m.length` bytes; when the response carries at least
`m.length` bytes and those first bytes hash to the declared digests,
verification succeeds and exactly those first `m.length` bytes are
written to the staged file, with bytes beyond the declared length
silently discarded. -/
theorem C6_length_capped (hash : List Nat → List Nat) (s : State) (b : Binary)
    (t : Str) (m : TargetFileMeta) (resp : List Nat)
    (hlen : m.length ≤ resp.length)
    (hhash : hash (limitedStream m resp) = m.digest) :
    limitedStream m resp = resp.take m.length
    ∧ (limitedStream m resp).length ≤ m.length
    ∧ stageAndVerifyUpdate hash s b t m resp
        = ({ s with staging := s.staging.filter (fun e => !(e.1 == t))
              ++ [(t, resp.take m.length)] }, true) := by
  have hlen2 : (limitedStream m resp).length = m.length := by
    simp [limitedStream, hlen]
  have hc : ((limitedStream m resp).length == m.length
      && hash (limitedStream m resp) == m.digest) = true := by
    simp [hlen2, hhash]
  refine ⟨rfl, by rw [hlen2], ?_⟩
  simp only [stageAndVerifyUpdate, if_pos hc]
  rfl

/-- C6 (witness): metadata declares length 2; the mirror streams 3 bytes
`[5, 6, 7]`; with the identity hash the declared digest `[5, 6]` matches
the first two bytes, verification succeeds, and exactly `[5, 6]` is
staged. -/
theorem C6_witness :
    limitedStream (⟨2, [5, 6]⟩ : TargetFileMeta) [5, 6, 7] = [5, 6]
    ∧ stageAndVerifyUpdate (fun l => l) (State.mk [] [] []) .launcher
        "launcher-1.0.0.tar.gz".toList ⟨2, [5, 6]⟩ [5, 6, 7]
      = (State.mk [] [] [("launcher-1.0.0.tar.gz".toList, [5, 6])], true) := by
  have h := C6_length_capped (fun l => l) (State.mk [] [] []) .launcher
    "launcher-1.0.0.tar.gz".toList ⟨2, [5, 6]⟩ [5, 6, 7] (by decide) (by decide)
  exact ⟨h.1, by rw [h.2.2]; decide⟩

/-! ## C4: only probed candidates are installed -/

/-- C4: in every execution of `AddToLibrary`, every entry of the
resulting library for the binary is either an entry that was already
there, or the freshly renamed staged candidate — whose liveness probe
succeeded immediately before the rename (its recorded probe status is
positive and the probe on the staged archive's executable returned
success), and whose directory name is the version decoded from the
target. Moreover, when the probe on the staged candidate fails, no
library directory of any binary changes at all: a half-installed version
never appears under `<base>/<binary>/`. -/
theorem C4_install_only_probed (hash : List Nat → List Nat)
    (untarOk probeExe : List Nat → Bool)
    (s : State) (b : Binary) (cur t : Str) (m : TargetFileMeta) (resp : List Nat) :
    (∀ e, e ∈ (AddToLibrary hash untarOk probeExe s b cur t m resp).1.libOf b →
      e ∈ s.libOf b ∨
        (e.probeOk = true ∧ probeExe (limitedStream m resp) = true
          ∧ e.name = versionFromTarget b t))
    ∧ (probeExe (limitedStream m resp) = false →
        ∀ b', (AddToLibrary hash untarOk probeExe s b cur t m resp).1.libOf b'
          = s.libOf b') := by
  cases h1 : (cur == versionFromTarget b t) with
  | true =>
    rw [AddToLibrary_eq_of_cur hash untarOk probeExe s b cur t m resp h1]
    exact ⟨fun e he => Or.inl he, fun _ b' => rfl⟩
  | false =>
    cases h2 : Available s b t with
    | true =>
      rw [AddToLibrary_eq_of_available hash untarOk probeExe s b cur t m resp h1 h2]
      exact ⟨fun e he => Or.inl he, fun _ b' => rfl⟩
    | false =>
      cases h3 : (stageAndVerifyUpdate hash s b t m resp).2 with
      | false =>
        rw [AddToLibrary_eq_stage_fail hash untarOk probeExe s b cur t m resp h1 h2 h3]
        constructor
        · intro e he
          rw [tidyStagedUpdates_eq, libOf_erase_staging, stageAndVerify_libOf] at he
          exact Or.inl he
        · intro _ b'
          rw [tidyStagedUpdates_eq, libOf_erase_staging, stageAndVerify_libOf]
      | true =>
        cases h4 : (moveVerifiedUpdate untarOk probeExe
            (stageAndVerifyUpdate hash s b t m resp).1 b t (limitedStream m resp)).2 with
        | false =>
          rw [AddToLibrary_eq_move hash untarOk probeExe s b cur t m resp h1 h2 h3]
          constructor
          · intro e he
            rw [tidyStagedUpdates_eq, libOf_erase_staging,
              moveVerified_fail _ _ _ _ _ _ h4, stageAndVerify_libOf] at he
            exact Or.inl he
          · intro _ b'
            rw [tidyStagedUpdates_eq, libOf_erase_staging,
              moveVerified_fail _ _ _ _ _ _ h4, stageAndVerify_libOf]
        | true =>
          have hs := moveVerified_success untarOk probeExe
            (stageAndVerifyUpdate hash s b t m resp).1 b t (limitedStream m resp) h4
          rw [AddToLibrary_eq_move hash untarOk probeExe s b cur t m resp h1 h2 h3]
          constructor
          · intro e he
            rw [tidyStagedUpdates_eq, libOf_erase_staging, hs.2, libOf_setLib_same,
              stageAndVerify_libOf] at he
            rcases List.mem_append.1 he with h | h
            · exact Or.inl h
            · have he2 : e = ⟨versionFromTarget b t, probeExe (limitedStream m resp)⟩ :=
                List.mem_singleton.1 h
              refine Or.inr ⟨?_, hs.1, ?_⟩
              · rw [he2]
                exact hs.1
              · rw [he2]
          · intro hprobe
            simp [hs.1] at hprobe

/-- C4 (witness): a concrete successful install — the freshly installed
entry is accounted for by the install theorem. -/
theorem C4_witness :
    (⟨"1.0.0".toList, true⟩ : LibEntry) ∈ (State.mk [] [] []).libOf .launcher
    ∨ ((⟨"1.0.0".toList, true⟩ : LibEntry).probeOk = true
        ∧ (fun _ => true : List Nat → Bool)
            (limitedStream (⟨1, [7]⟩ : TargetFileMeta) [7]) = true
        ∧ (⟨"1.0.0".toList, true⟩ : LibEntry).name
            = versionFromTarget .launcher "launcher-1.0.0.tar.gz".toList) :=
  (C4_install_only_probed (fun l => l) (fun _ => true) (fun _ => true)
    (State.mk [] [] []) .launcher [] "launcher-1.0.0.tar.gz".toList ⟨1, [7]⟩ [7]).1
    ⟨"1.0.0".toList, true⟩ (by decide)

/-! ## C5: idempotence of AddToLibrary -/

theorem Available_of_append (s' : State) (b : Binary) (t : Str) (l : List LibEntry)
    (h : s'.libOf b = l ++ [⟨versionFromTarget b t, true⟩]) :
    Available s' b t = true := by
  simp [Available, h]

/-- C5 (counterexample): the claim «two successive identical calls
perform exactly one download» is false when the download fails
verification: each of the two calls contacts the mirror, so the pair
performs two downloads, not one. Concretely, with declared digest `[99]`
but identity-hashed payload `[0]`, both calls download and fail. -/
theorem C5_counterexample :
    ((AddToLibrary (fun l => l) (fun _ => true) (fun _ => true)
        (State.mk [] [] []) .launcher [] "launcher-1.0.0.tar.gz".toList
        ⟨1, [99]⟩ [0]).2.2
      + (AddToLibrary (fun l => l) (fun _ => true) (fun _ => true)
          (AddToLibrary (fun l => l) (fun _ => true) (fun _ => true)
            (State.mk [] [] []) .launcher [] "launcher-1.0.0.tar.gz".toList
            ⟨1, [99]⟩ [0]).1
          .launcher [] "launcher-1.0.0.tar.gz".toList ⟨1, [99]⟩ [0]).2.2) = 2
    ∧ ¬ (((AddToLibrary (fun l => l) (fun _ => true) (fun _ => true)
        (State.mk [] [] []) .launcher [] "launcher-1.0.0.tar.gz".toList
        ⟨1, [99]⟩ [0]).2.2
      + (AddToLibrary (fun l => l) (fun _ => true) (fun _ => true)
          (AddToLibrary (fun l => l) (fun _ => true) (fun _ => true)
            (State.mk [] [] []) .launcher [] "launcher-1.0.0.tar.gz".toList
            ⟨1, [99]⟩ [0]).1
          .launcher [] "launcher-1.0.0.tar.gz".toList ⟨1, [99]⟩ [0]).2.2) = 1) := by
  constructor
  · decide
  · decide

/-- C5 (amended): when the first call returns success, a second call
with identical arguments is a no-op: it returns success, leaves the
state exactly as the first call left it, and performs zero downloads —
so the pair behaves like the single call and downloads at most once. In
particular the no-download early returns (current version equals the
target's version, or the target already available) short-circuit again,
and after a successful install the freshly installed version makes
`Available` true. -/
theorem C5_idempotent_amended (hash : List Nat → List Nat)
    (untarOk probeExe : List Nat → Bool)
    (s : State) (b : Binary) (cur t : Str) (m : TargetFileMeta) (resp : List Nat) :
    (cur = versionFromTarget b t →
      AddToLibrary hash untarOk probeExe s b cur t m resp = (s, true, 0))
    ∧ (Available s b t = true →
      AddToLibrary hash untarOk probeExe s b cur t m resp = (s, true, 0))
    ∧ ((AddToLibrary hash untarOk probeExe s b cur t m resp).2.1 = true →
      AddToLibrary hash untarOk probeExe
          (AddToLibrary hash untarOk probeExe s b cur t m resp).1 b cur t m resp
        = ((AddToLibrary hash untarOk probeExe s b cur t m resp).1, true, 0)) := by
  refine ⟨?_, ?_, ?_⟩
  · intro hc
    exact AddToLibrary_eq_of_cur hash untarOk probeExe s b cur t m resp (beq_iff_eq.2 hc)
  · intro hav
    cases h1 : (cur == versionFromTarget b t) with
    | true => exact AddToLibrary_eq_of_cur hash untarOk probeExe s b cur t m resp h1
    | false => exact AddToLibrary_eq_of_available hash untarOk probeExe s b cur t m resp h1 hav
  intro h
  cases h1 : (cur == versionFromTarget b t) with
  | true =>
    rw [AddToLibrary_eq_of_cur hash untarOk probeExe s b cur t m resp h1]
    exact AddToLibrary_eq_of_cur hash untarOk probeExe s b cur t m resp h1
  | false =>
    cases h2 : Available s b t with
    | true =>
      rw [AddToLibrary_eq_of_available hash untarOk probeExe s b cur t m resp h1 h2]
      exact AddToLibrary_eq_of_available hash untarOk probeExe s b cur t m resp h1 h2
    | false =>
      cases h3 : (stageAndVerifyUpdate hash s b t m resp).2 with
      | false =>
        rw [AddToLibrary_eq_stage_fail hash untarOk probeExe s b cur t m resp h1 h2 h3] at h
        cases h
      | true =>
        cases h4 : (moveVerifiedUpdate untarOk probeExe
            (stageAndVerifyUpdate hash s b t m resp).1 b t (limitedStream m resp)).2 with
        | false =>
          rw [AddToLibrary_eq_move hash untarOk probeExe s b cur t m resp h1 h2 h3] at h
          rw [h4] at h
          cases h
        | true =>
          have hs := moveVerified_success untarOk probeExe
            (stageAndVerifyUpdate hash s b t m resp).1 b t (limitedStream m resp) h4
          rw [AddToLibrary_eq_move hash untarOk probeExe s b cur t m resp h1 h2 h3]
          have hl : (tidyStagedUpdates b (moveVerifiedUpdate untarOk probeExe
              (stageAndVerifyUpdate hash s b t m resp).1 b t (limitedStream m resp)).1).libOf b
              = (stageAndVerifyUpdate hash s b t m resp).1.libOf b
                ++ [⟨versionFromTarget b t, true⟩] := by
            rw [tidyStagedUpdates_eq, libOf_erase_staging, hs.2, libOf_setLib_same, hs.1]
          have havail := Available_of_append _ b t _ hl
          rw [h4]
          exact AddToLibrary_eq_of_available hash untarOk probeExe _ b cur t m resp h1 havail

/-- C5 (witness): after a concrete successful install, the repeated call
returns success with no download and no state change. -/
theorem C5_witness :
    AddToLibrary (fun l => l) (fun _ => true) (fun _ => true)
        (AddToLibrary (fun l => l) (fun _ => true) (fun _ => true)
          (State.mk [] [] []) .launcher [] "launcher-1.0.0.tar.gz".toList ⟨1, [7]⟩ [7]).1
        .launcher [] "launcher-1.0.0.tar.gz".toList ⟨1, [7]⟩ [7]
      = ((AddToLibrary (fun l => l) (fun _ => true) (fun _ => true)
          (State.mk [] [] []) .launcher [] "launcher-1.0.0.tar.gz".toList ⟨1, [7]⟩ [7]).1,
        true, 0) :=
  (C5_idempotent_amended (fun l => l) (fun _ => true) (fun _ => true)
    (State.mk [] [] []) .launcher [] "launcher-1.0.0.tar.gz".toList ⟨1, [7]⟩ [7]).2.2
    (by decide)

/-! ## C10: the Windows permission check on stat errors -/

/-- C10 (code_bug): the claim says `checkExecutablePermissions` is total
— it should return an error value for every input, including paths whose
`os.Stat` fails with an error other than non-existence. The source's own
(unreachable) `case err != nil` arm documents that intent, but the
`switch` evaluates `stat.IsDir()` before `err != nil`, and `os.Stat`
returns a nil `FileInfo` whenever it returns an error: on a
permission-denied (or any other non-not-exist) stat error the function
dereferences the nil `FileInfo` and panics instead of returning. -/
theorem C10_nil_stat_deref :
    checkExecutablePermissions "C:\\x.exe".toList none (some .permissionDenied)
        = .nilDeref
    ∧ checkExecutablePermissions "C:\\x.exe".toList none (some .other) = .nilDeref := by
  constructor
  · decide
  · decide
